import Mathlib

/-!
# Verification of the DGutils schema engine

Shallow embedding of `src/dgutils/schema.py` (the `Schema` class: leaf
validation, tree validation/cleanup, dotted-path resolution, `get`/`set`,
construction-time persistence, property binding) and `src/dgutils/linker.py`
(the `Linker` connection registry), together with theorems settling the
spec claims about them.

Python runtime values that can appear in the YAML rule tree and the JSON
user-data tree are modelled by `PyVal`.  Python `dict`s are modelled as
insertion-ordered association lists (`Dict`); a genuine Python dict has
unique keys, which is taken as a hypothesis where a proof needs it.
Machine-level floats are modelled as rationals: all numerals appearing in
rule files and JSON documents are exact, and none of the claims concerns
rounding behaviour.
-/

set_option maxHeartbeats 1000000

namespace DGutils

/-- A Python runtime value, as produced by `yaml.safe_load` / `json.load`. -/
inductive PyVal where
  | none
  | bool (b : Bool)
  | int (n : Int)
  | float (q : Rat)
  | str (s : String)
  | list (xs : List PyVal)
  | dict (entries : List (String × PyVal))

/-- Python dicts are insertion-ordered mappings; modelled as assoc lists. -/
abbrev Dict := List (String × PyVal)

/-- `d.get(k)` / `k in d` for a Python dict with string keys: first binding. -/
def dget (d : Dict) (k : String) : Option PyVal :=
  match d with
  | [] => Option.none
  | (k2, v) :: rest => if k == k2 then some v else dget rest k

/-- The runtime type tag of a value (`type(v)` in Python). -/
inductive PyType where
  | noneT | boolT | intT | floatT | strT | listT | dictT
  deriving DecidableEq, Repr

def PyVal.typeOf : PyVal → PyType
  | .none => .noneT
  | .bool _ => .boolT
  | .int _ => .intT
  | .float _ => .floatT
  | .str _ => .strT
  | .list _ => .listT
  | .dict _ => .dictT

/-- Python `isinstance(v, t)`: exact type match, except that `bool` is a
subclass of `int`, so bool values are instances of `int`. -/
def isinst (v : PyVal) : PyType → Bool
  | .intT => v.typeOf == .intT || v.typeOf == .boolT
  | t => v.typeOf == t

/-- Numeric view used by Python `==`, `<`, `>` across `bool`/`int`/`float`
(`True` counts as `1`, `False` as `0`). -/
def asRat : PyVal → Option Rat
  | .bool b => some (if b then 1 else 0)
  | .int n => some (n : Rat)
  | .float q => some q
  | _ => Option.none

mutual

/-- Python `==` on runtime values: numeric kinds compare by value
(`True == 1 == 1.0`), strings/lists/dicts structurally, different
non-numeric kinds are unequal.  Dict comparison is modelled pointwise in
insertion order: Python's dict `==` ignores order, but every dict compared
in this development is built by the same rule-ordered walk, so the orders
always coincide. -/
def pyEq : PyVal → PyVal → Bool
  | .none, .none => true
  | .str s, .str t => s == t
  | .list xs, .list ys => pyEqList xs ys
  | .dict d1, .dict d2 => pyEqDict d1 d2
  | .bool a, .bool b => a == b
  | .bool a, .int n => (if a then (1 : Int) else 0) == n
  | .bool a, .float q => (if a then (1 : Rat) else 0) == q
  | .int n, .bool b => n == (if b then (1 : Int) else 0)
  | .int n, .int m => n == m
  | .int n, .float q => ((n : Rat)) == q
  | .float q, .bool b => q == (if b then (1 : Rat) else 0)
  | .float q, .int n => q == ((n : Rat))
  | .float p, .float q => p == q
  | _, _ => false

def pyEqList : List PyVal → List PyVal → Bool
  | [], [] => true
  | x :: xs, y :: ys => pyEq x y && pyEqList xs ys
  | _, _ => false

def pyEqDict : List (String × PyVal) → List (String × PyVal) → Bool
  | [], [] => true
  | (k, v) :: xs, (k2, v2) :: ys => k == k2 && pyEq v v2 && pyEqDict xs ys
  | _, _ => false

end

/-- Python `a < b` for the operand kinds that can reach the rule
comparisons: numeric kinds compare by value, strings lexicographically;
any other combination raises `TypeError` (`Option.none`). -/
def pyLt (a b : PyVal) : Option Bool :=
  match asRat a, asRat b with
  | some x, some y => some (decide (x < y))
  | _, _ =>
    match a, b with
    | .str s, .str t => some (decide (s < t))
    | _, _ => Option.none

/-- Character-list membership test used for Python's `sub in s` on strings. -/
def charsIn (pat s : List Char) : Bool :=
  (List.range (s.length + 1)).any (fun i => (s.drop i).take pat.length == pat)

/-- Python `v in container` for the containers a rule's `enum` can be:
lists test membership by `==`, strings test substring (both operands must
be strings), dicts test key membership (unhashable values raise). -/
def pyIn (v container : PyVal) : Option Bool :=
  match container with
  | .list xs => some (xs.any (fun x => pyEq v x))
  | .str s =>
    match v with
    | .str sub => some (charsIn sub.toList s.toList)
    | _ => Option.none
  | .dict d =>
    match v with
    | .str k => some (dget d k).isSome
    | .list _ => Option.none
    | .dict _ => Option.none
    | _ => some false
  | _ => Option.none

/-- `rule.get("default")`: Python `None` when the key is absent. -/
def leafDefault (rule : Dict) : PyVal :=
  (dget rule "default").getD .none

/-- The `pytype` computed in `Schema._validate_leaf`:
`{"int": int, "str": str, "bool": bool, "float": float}.get(expected_type,
type(default_value))`. -/
def leafPyType (rule : Dict) : PyType :=
  match (dget rule "type").getD .none with
  | .str "int" => .intT
  | .str "str" => .strT
  | .str "bool" => .boolT
  | .str "float" => .floatT
  | _ => (leafDefault rule).typeOf

/-- `expected_type in ("int", "float")` in `Schema._validate_leaf`. -/
def isNumericRule (rule : Dict) : Bool :=
  match (dget rule "type").getD .none with
  | .str s => s == "int" || s == "float"
  | _ => false

/-- `if "min" in rule and value < rule["min"]: value, changed = default, True`. -/
def checkMin (rule : Dict) (dflt : PyVal) (vc : PyVal × Bool) :
    Option (PyVal × Bool) :=
  match dget rule "min" with
  | Option.none => some vc
  | some m =>
    match pyLt vc.1 m with
    | Option.none => Option.none
    | some true => some (dflt, true)
    | some false => some vc

/-- `if "max" in rule and value > rule["max"]: value, changed = default, True`
(`a > b` is `b < a` on the numeric/string operands modelled here). -/
def checkMax (rule : Dict) (dflt : PyVal) (vc : PyVal × Bool) :
    Option (PyVal × Bool) :=
  match dget rule "max" with
  | Option.none => some vc
  | some m =>
    match pyLt m vc.1 with
    | Option.none => Option.none
    | some true => some (dflt, true)
    | some false => some vc

/-- `if "enum" in rule and value not in rule["enum"]: value, changed = default, True`. -/
def checkEnum (rule : Dict) (dflt : PyVal) (vc : PyVal × Bool) :
    Option (PyVal × Bool) :=
  match dget rule "enum" with
  | Option.none => some vc
  | some e =>
    match pyIn vc.1 e with
    | Option.none => Option.none
    | some true => some vc
    | some false => some (dflt, true)

/-- `if not isinstance(value, pytype): value, changed = default, True`. -/
def typeStep (rule : Dict) (value : PyVal) : PyVal × Bool :=
  if isinst value (leafPyType rule) then (value, false)
  else (leafDefault rule, true)

/-- The `if expected_type in ("int", "float")` block: the `min` check then
the `max` check, each on the current value. -/
def numericStep (rule : Dict) (vc : PyVal × Bool) : Option (PyVal × Bool) :=
  if isNumericRule rule then
    (checkMin rule (leafDefault rule) vc).bind (checkMax rule (leafDefault rule))
  else some vc

/-- `Schema._validate_leaf(rule, value)`.  Returns `Option.none` when the
Python code would raise (`TypeError` from an unsupported comparison or
membership test). -/
def validateLeaf (rule : Dict) (value : PyVal) : Option (PyVal × Bool) :=
  (numericStep rule (typeStep rule value)).bind (checkEnum rule (leafDefault rule))

/-- `_is_leaf_rule(rule)`: `isinstance(rule, dict) and ("type" in rule)`. -/
def isLeafRule : PyVal → Bool
  | .dict d => (dget d "type").isSome
  | _ => false

/-- `data_node.keys() - rule_node.keys()` nonempty: the cleanup loop at the
end of `walk` sets `changed` once per extra key. -/
def hasExtra (ruleNode dataNode : Dict) : Bool :=
  dataNode.any (fun kv => !(ruleNode.any (fun rv => rv.1 == kv.1)))

/-- `data_node.get(name, {})` coerced to a dict, with the `changed` flag the
group branch of `walk` sets for a non-mapping child. -/
def childData (dataNode : Dict) (name : String) : Dict × Bool :=
  match dget dataNode name with
  | some (.dict d) => (d, false)
  | some _ => ([], true)
  | Option.none => ([], false)

/-- The body of the `for name, rule in rule_node.items()` loop inside
`Schema._apply_validation_and_cleanup.walk`, producing the `corrected`
mapping in rule order and the accumulated `changed` flag for this level
(without this level's extra-key scan, which `walk` adds).  The nested
group branch is the recursive `walk(rule, child_data)` call with `walk`'s
post-processing written inline.  A non-dict rule is not a leaf
(`_is_leaf_rule` checks `isinstance(rule, dict)`), and recursing into it
raises `AttributeError` on `rule.items()`, modelled by `Option.none`. -/
def walkAux : Dict → Dict → Option (Dict × Bool)
  | [], _ => some ([], false)
  | (name, rule) :: rest, dataNode =>
    (walkAux rest dataNode).bind fun rc =>
      match rule with
      | .dict rd =>
        if (dget rd "type").isSome then
          -- `_is_leaf_rule(rule)` holds: leaf setting with constraints
          (validateLeaf rd ((dget dataNode name).getD (leafDefault rd))).bind
            fun vw => some ((name, vw.1) :: rc.1, vw.2 || rc.2)
        else
          -- nested group: `walk(rule, child_data)`
          ((walkAux rd (childData dataNode name).1).map fun c =>
              (c.1, c.2 || hasExtra rd (childData dataNode name).1)).bind
            fun cc =>
              some ((name, PyVal.dict cc.1) :: rc.1,
                ((childData dataNode name).2 || cc.2) || rc.2)
      | _ => Option.none
termination_by r _ => sizeOf r

/-- `Schema._apply_validation_and_cleanup.walk(rule_node, data_node)`:
the per-entry loop followed by the extra-key cleanup scan. -/
def walk (ruleNode dataNode : Dict) : Option (Dict × Bool) :=
  (walkAux ruleNode dataNode).map fun c =>
    (c.1, c.2 || hasExtra ruleNode dataNode)

/-- `Schema._apply_validation_and_cleanup(user_data, rules)`:
`walk(rules, user_data if isinstance(user_data, dict) else {})`. -/
def applyValidationAndCleanup (userData : PyVal) (rules : Dict) :
    Option (Dict × Bool) :=
  walk rules (match userData with | .dict d => d | _ => [])

/-- The persisted user file as seen by `Schema._load_or_create_user_data`:
`Option.none` models a missing file, `some Option.none` an unreadable or
unparsable file, `some (some v)` a file whose JSON parses to `v`.  The
Python method returns `{}` in the first two cases. -/
def loadOrCreateUserData (file : Option (Option PyVal)) : PyVal :=
  match file with
  | some (some v) => v
  | _ => .dict []

/-- Outcome of `Schema.__init__`: the corrected in-memory data tree and how
many times `_save` wrote the user file during construction. -/
structure InitOutcome where
  data : Dict
  savedCount : Nat

/-- `Schema.__init__` after the rule tree is loaded: load-or-create the
user data, validate, and `_save` exactly when the walk flagged `changed`. -/
def schemaInit (rules : Dict) (file : Option (Option PyVal)) :
    Option InitOutcome :=
  match applyValidationAndCleanup (loadOrCreateUserData file) rules with
  | Option.none => Option.none
  | some (corrected, changed) =>
    some ⟨corrected, if changed then 1 else 0⟩

/-- The concrete rule tree of the spec scenario:
`{volume: {type: int, default: 50, min: 0, max: 100}}`. -/
def volumeRules : Dict :=
  [("volume", PyVal.dict
    [("type", PyVal.str "int"), ("default", PyVal.int 50),
     ("min", PyVal.int 0), ("max", PyVal.int 100)])]

def volumeLeaf : Dict :=
  [("type", PyVal.str "int"), ("default", PyVal.int 50),
   ("min", PyVal.int 0), ("max", PyVal.int 100)]

/-! ## Dotted-path resolution, `get` and `set` -/

/-- Python `s.split(sep)` for a one-character separator, on char lists:
always yields at least one (possibly empty) segment. -/
def splitChars (c : Char) : List Char → List (List Char)
  | [] => [[]]
  | x :: xs =>
    match splitChars c xs with
    | [] => [[]]
    | hd :: tl => if x = c then [] :: hd :: tl else (x :: hd) :: tl

/-- `dotted_path.split(".")`. -/
def splitDots (s : String) : List String :=
  (splitChars '.' s.toList).map List.asString

/-- The `KeyError` variants `Schema._resolve_parent_and_key` can raise. -/
inductive ResolveErr where
  | emptyPath
  | keyError (k : String)
  | nonGroup (k : String)
  deriving DecidableEq

/-- The `for name in parts[:-1]` descent: `node = node[name]`, raising
`KeyError` on a missing key, then raising if the child is not a dict. -/
def resolveGo : Dict → List String → Except ResolveErr Dict
  | node, [] => .ok node
  | node, name :: rest =>
    match dget node name with
    | Option.none => .error (.keyError name)
    | some (.dict child) => resolveGo child rest
    | some _ => .error (.nonGroup name)

/-- `Schema._resolve_parent_and_key(root, dotted_path)`. -/
def resolveParentAndKey (root : Dict) (dottedPath : String) :
    Except ResolveErr (Dict × String) :=
  let parts := splitDots dottedPath
  match parts.getLast? with
  | Option.none => .error .emptyPath
  | some last =>
    match resolveGo root parts.dropLast with
    | .error e => .error e
    | .ok node => .ok (node, last)

/-- `Schema.get(dotted_path)`: resolve, then `node[key]`. -/
def schemaGet (data : Dict) (dottedPath : String) : Except ResolveErr PyVal :=
  match resolveParentAndKey data dottedPath with
  | .error e => .error e
  | .ok (node, key) =>
    match dget node key with
    | some v => .ok v
    | Option.none => .error (.keyError key)

/-- Errors surfaced by `Schema.set`. -/
inductive SetErr where
  | resolveRules (e : ResolveErr)
  | ruleMissing (k : String)
  | validateFail
  | resolveData (e : ResolveErr)
  | persist
  deriving DecidableEq

/-- `Schema._validate_single_value(dotted_path, value)`: resolve the path
in the rule tree, index `rule_node[key]`, and run `_validate_leaf`.
`validateFail` stands for the exceptions `_validate_leaf` can raise
(a non-dict rule has no `.get`, and comparisons can raise `TypeError`). -/
def validateSingleValue (rules : Dict) (dottedPath : String) (value : PyVal) :
    Except SetErr PyVal :=
  match resolveParentAndKey rules dottedPath with
  | .error e => .error (.resolveRules e)
  | .ok (ruleNode, key) =>
    match dget ruleNode key with
    | Option.none => .error (.ruleMissing key)
    | some (.dict rd) =>
      match validateLeaf rd value with
      | some (v, _) => .ok v
      | Option.none => .error .validateFail
    | some _ => .error .validateFail

/-- Python dict item assignment `d[k] = v`: replaces the value in place if
the key is present (keeping its position), else appends a new binding. -/
def dset (d : Dict) (k : String) (v : PyVal) : Dict :=
  if (dget d k).isSome then
    d.map (fun kv => if kv.1 == k then (k, v) else kv)
  else d ++ [(k, v)]

/-- Functional image of the in-place assignment `node[key] = value` done by
`Schema.set` through the parent dict resolved along `parts[:-1]`. -/
def updateGo (d : Dict) (path : List String) (key : String) (v : PyVal) :
    Option Dict :=
  match path with
  | [] => some (dset d key v)
  | name :: rest =>
    match dget d name with
    | some (.dict child) =>
      match updateGo child rest key v with
      | some c => some (dset d name (.dict c))
      | Option.none => Option.none
    | _ => Option.none

/-- Observable outcome of one `Schema.set` call: the data tree after the
call, whether `_save` wrote the file, the `changed` signals emitted (in
order), and the exception surfaced to the caller, if any. -/
structure SetOutcome where
  data : Dict
  saved : Bool
  events : List (String × PyVal)
  err : Option SetErr

/-- `Schema.set(dotted_path, value)`.  `saveOk` models whether the
synchronous `_save` write would succeed; on failure the exception
propagates after the in-place mutation and before the `emit`. -/
def schemaSet (rules data : Dict) (dottedPath : String) (value : PyVal)
    (saveOk : Bool) : SetOutcome :=
  match validateSingleValue rules dottedPath value with
  | .error e => ⟨data, false, [], some e⟩
  | .ok valid =>
    match resolveParentAndKey data dottedPath with
    | .error e => ⟨data, false, [], some (.resolveData e)⟩
    | .ok (node, key) =>
      if pyEq ((dget node key).getD .none) valid then
        ⟨data, false, [], Option.none⟩
      else
        let data' := (updateGo data (splitDots dottedPath).dropLast key valid).getD data
        if saveOk then ⟨data', true, [(dottedPath, valid)], Option.none⟩
        else ⟨data', false, [], some .persist⟩

/-! ## Leaf-level lemmas -/

/-- Induction over rule dictionaries: to prove `P` for every level of a
rule tree it suffices to handle `[]` and a cons whose rule value, when a
dict, satisfies `P` on its entries. -/
theorem ruleInd (P : Dict → Prop) (h0 : P ([] : Dict))
    (h1 : ∀ (name : String) (rule : PyVal) (rest : Dict),
      (∀ rd, rule = PyVal.dict rd → P rd) → P rest → P ((name, rule) :: rest)) :
    ∀ r, P r := by
  suffices H : ∀ n r, sizeOf r < n → P r by
    intro r; exact H (sizeOf r + 1) r (Nat.lt_succ_self _)
  intro n
  induction n with
  | zero => intro r h; omega
  | succ n ih =>
    intro r h
    match r with
    | [] => exact h0
    | (name, rule) :: rest =>
      simp only [List.cons.sizeOf_spec, Prod.mk.sizeOf_spec] at h
      refine h1 name rule rest ?_ ?_
      · intro rd hrd
        subst hrd
        simp only [PyVal.dict.sizeOf_spec] at h
        exact ih rd (by omega)
      · exact ih rest (by omega)

theorem checkMin_cases {rule : Dict} {dflt : PyVal} {vc vc' : PyVal × Bool}
    (h : checkMin rule dflt vc = some vc') : vc' = vc ∨ vc' = (dflt, true) := by
  unfold checkMin at h
  split at h
  · exact Or.inl (by simpa using h.symm)
  · split at h
    · exact absurd h (by simp)
    · exact Or.inr (by simpa using h.symm)
    · exact Or.inl (by simpa using h.symm)

theorem checkMax_cases {rule : Dict} {dflt : PyVal} {vc vc' : PyVal × Bool}
    (h : checkMax rule dflt vc = some vc') : vc' = vc ∨ vc' = (dflt, true) := by
  unfold checkMax at h
  split at h
  · exact Or.inl (by simpa using h.symm)
  · split at h
    · exact absurd h (by simp)
    · exact Or.inr (by simpa using h.symm)
    · exact Or.inl (by simpa using h.symm)

theorem checkEnum_cases {rule : Dict} {dflt : PyVal} {vc vc' : PyVal × Bool}
    (h : checkEnum rule dflt vc = some vc') : vc' = vc ∨ vc' = (dflt, true) := by
  unfold checkEnum at h
  split at h
  · exact Or.inl (by simpa using h.symm)
  · split at h
    · exact absurd h (by simp)
    · exact Or.inl (by simpa using h.symm)
    · exact Or.inr (by simpa using h.symm)

theorem numericStep_cases {rule : Dict} {vc vc' : PyVal × Bool}
    (h : numericStep rule vc = some vc') :
    vc' = vc ∨ vc' = (leafDefault rule, true) := by
  unfold numericStep at h
  split at h
  · rcases Option.bind_eq_some.mp h with ⟨vc1, hmin, hmax⟩
    rcases checkMax_cases hmax with h2 | h2
    · subst h2; exact checkMin_cases hmin
    · exact Or.inr h2
  · exact Or.inl (by simpa using h.symm)

theorem typeStep_cases (rule : Dict) (value : PyVal) :
    (typeStep rule value = (value, false) ∧
        isinst value (leafPyType rule) = true) ∨
      typeStep rule value = (leafDefault rule, true) := by
  unfold typeStep
  split
  next h => exact Or.inl ⟨rfl, h⟩
  next => exact Or.inr rfl

/-- `_validate_leaf` either accepts the candidate unchanged or resets it to
the rule's default with `changed = True`. -/
theorem validateLeaf_cases {rule : Dict} {value v : PyVal} {c : Bool}
    (h : validateLeaf rule value = some (v, c)) :
    (c = false ∧ v = value) ∨ v = leafDefault rule := by
  unfold validateLeaf at h
  rcases Option.bind_eq_some.mp h with ⟨vc2, hnum, henum⟩
  rcases checkEnum_cases henum with h3 | h3
  · rcases numericStep_cases hnum with h2 | h2
    · rcases typeStep_cases rule value with ⟨h4, _⟩ | h4
      · rw [h4] at h2; rw [h2] at h3
        exact Or.inl ⟨congrArg Prod.snd h3, congrArg Prod.fst h3⟩
      · rw [h4] at h2; rw [h2] at h3
        exact Or.inr (congrArg Prod.fst h3)
    · rw [h2] at h3
      exact Or.inr (congrArg Prod.fst h3)
  · exact Or.inr (congrArg Prod.fst h3)

/-- A leaf rule whose default validates to itself unchanged. -/
def LeafOK (rule : Dict) : Prop :=
  validateLeaf rule (leafDefault rule) = some (leafDefault rule, false)

/-- Re-validating the result of `_validate_leaf` is the identity with
`changed = False`, provided the rule's own default is valid. -/
theorem validateLeaf_stable {rule : Dict} {value v : PyVal} {c : Bool}
    (h0 : LeafOK rule) (h : validateLeaf rule value = some (v, c)) :
    validateLeaf rule v = some (v, false) := by
  rcases validateLeaf_cases h with ⟨hc, hv⟩ | hv
  · subst hv; subst hc; exact h
  · subst hv; exact h0

theorem checkMax_default {rule : Dict} {dflt : PyVal} {vc' : PyVal × Bool}
    (h : checkMax rule dflt (dflt, true) = some vc') : vc' = (dflt, true) := by
  rcases checkMax_cases h with h2 | h2 <;> exact h2

theorem checkEnum_default {rule : Dict} {dflt : PyVal} {vc' : PyVal × Bool}
    (h : checkEnum rule dflt (dflt, true) = some vc') : vc' = (dflt, true) := by
  rcases checkEnum_cases h with h2 | h2 <;> exact h2

theorem numericStep_default {rule : Dict} {vc' : PyVal × Bool}
    (h : numericStep rule (leafDefault rule, true) = some vc') :
    vc' = (leafDefault rule, true) := by
  rcases numericStep_cases h with h2 | h2 <;> exact h2

/-- The numeric bound check of the spec's reading of `_validate_leaf`:
the rule is numeric and the candidate violates whichever of `min`/`max`
are present. -/
def minMaxFail (rule : Dict) (candidate : PyVal) : Bool :=
  isNumericRule rule &&
    ((match dget rule "min" with
      | some m => pyLt candidate m == some true
      | Option.none => false) ||
     (match dget rule "max" with
      | some m => pyLt m candidate == some true
      | Option.none => false))

/-- The enum check of the spec's reading of `_validate_leaf`: `enum` is
present and the candidate is not a member. -/
def enumFail (rule : Dict) (candidate : PyVal) : Bool :=
  match dget rule "enum" with
  | some e => pyIn candidate e == some false
  | Option.none => false

/-- The condition under which the spec says `_validate_leaf` resets to the
default, with the type check read as Python `isinstance` (so `bool`
candidates count as `int`). -/
def c1FailCond (rule : Dict) (candidate : PyVal) : Bool :=
  !(isinst candidate (leafPyType rule)) ||
    minMaxFail rule candidate || enumFail rule candidate

theorem numericStep_spec {rule : Dict} {candidate : PyVal} {vc2 : PyVal × Bool}
    (h : numericStep rule (candidate, false) = some vc2) :
    vc2 = if minMaxFail rule candidate then (leafDefault rule, true)
          else (candidate, false) := by
  unfold numericStep at h
  unfold minMaxFail
  split at h
  next hnum =>
    rw [hnum]
    rcases Option.bind_eq_some.mp h with ⟨vc1, hmin, hmax⟩
    unfold checkMin at hmin
    split at hmin
    next hminNone =>
      -- no "min" bound
      cases hmin
      unfold checkMax at hmax
      split at hmax
      next hmaxNone =>
        cases hmax
        simp [hminNone, hmaxNone]
      next m2 hmaxSome =>
        split at hmax
        · exact absurd hmax (by simp)
        next hlt =>
          cases hmax
          simp [hminNone, hmaxSome, hlt]
        next hlt =>
          cases hmax
          simp [hminNone, hmaxSome, hlt]
    next m hminSome =>
      split at hmin
      · exact absurd hmin (by simp)
      next hlt =>
        -- candidate < min: reset to default, max checked on the default
        cases hmin
        rw [checkMax_default hmax]
        simp [hminSome, hlt]
      next hlt =>
        -- min bound passed
        cases hmin
        unfold checkMax at hmax
        split at hmax
        next hmaxNone =>
          cases hmax
          simp [hminSome, hmaxNone, hlt]
        next m2 hmaxSome =>
          split at hmax
          · exact absurd hmax (by simp)
          next hlt2 =>
            cases hmax
            simp [hminSome, hmaxSome, hlt, hlt2]
          next hlt2 =>
            cases hmax
            simp [hminSome, hmaxSome, hlt, hlt2]
  next hnum =>
    simp only [Bool.not_eq_true] at hnum
    rw [hnum]
    simpa using h.symm

theorem checkEnum_spec {rule : Dict} {candidate : PyVal} {res : PyVal × Bool}
    (h : checkEnum rule (leafDefault rule) (candidate, false) = some res) :
    res = if enumFail rule candidate then (leafDefault rule, true)
          else (candidate, false) := by
  unfold checkEnum at h
  unfold enumFail
  split at h
  next hnone =>
    cases h
    simp [hnone]
  next e hsome =>
    split at h
    · exact absurd h (by simp)
    next hin =>
      cases h
      simp [hsome, hin]
    next hin =>
      cases h
      simp [hsome, hin]

/-- C1 (amended): for every leaf rule and candidate on which
`_validate_leaf` returns (does not raise), the result is
`(rule.default, changed=True)` exactly when the Python `isinstance` type
check fails (bool candidates count as int, and an unrecognised type tag
falls back to the runtime type of the default), or the rule is numeric and
the candidate violates a present `min`/`max` bound, or `enum` is present
and the candidate is not in it; otherwise it is `(candidate, False)`. -/
theorem c1_validateLeaf_spec (rule : Dict) (candidate : PyVal)
    (res : PyVal × Bool) (h : validateLeaf rule candidate = some res) :
    res = if c1FailCond rule candidate then (leafDefault rule, true)
          else (candidate, false) := by
  unfold validateLeaf at h
  rcases Option.bind_eq_some.mp h with ⟨vc2, hnum, henum⟩
  unfold c1FailCond
  by_cases hI : isinst candidate (leafPyType rule) = true
  · have ht : typeStep rule candidate = (candidate, false) := by
      unfold typeStep; simp [hI]
    rw [ht] at hnum
    have h2 := numericStep_spec hnum
    by_cases hmm : minMaxFail rule candidate = true
    · rw [hmm, if_pos rfl] at h2
      subst h2
      rw [checkEnum_default henum]
      simp [hI, hmm]
    · simp only [Bool.not_eq_true] at hmm
      rw [hmm] at h2
      simp only [Bool.false_eq_true, if_false] at h2
      subst h2
      rw [checkEnum_spec henum]
      simp [hI, hmm]
  · simp only [Bool.not_eq_true] at hI
    have ht : typeStep rule candidate = (leafDefault rule, true) := by
      unfold typeStep; simp [hI]
    rw [ht] at hnum
    rw [numericStep_default hnum] at henum
    rw [checkEnum_default henum]
    simp [hI]

/-- C1 counterexample: under the rule
`{type: int, default: 50, min: 0, max: 100}`, the candidate `True` has
runtime type `bool`, which is not `int`, yet `_validate_leaf` returns the
candidate unchanged with `changed = False` (Python's `isinstance(True, int)`
is `True`), not `(default, True)` as the claim requires. -/
theorem c1_counterexample :
    dget volumeLeaf "type" = some (PyVal.str "int") ∧
    (PyVal.bool true).typeOf ≠ PyType.intT ∧
    validateLeaf volumeLeaf (PyVal.bool true) = some (PyVal.bool true, false) ∧
    (PyVal.bool true, false) ≠ (leafDefault volumeLeaf, true) := by
  refine ⟨rfl, by decide, rfl, ?_⟩
  intro h
  exact PyVal.noConfusion (congrArg Prod.fst h)

/-- Witness for `c1_validateLeaf_spec` at the rule
`{type: int, default: 50, min: 0, max: 100}` and candidate `150`. -/
theorem c1_witness :
    ((PyVal.int 50, true) : PyVal × Bool) =
      if c1FailCond volumeLeaf (PyVal.int 150) then (leafDefault volumeLeaf, true)
      else (PyVal.int 150, false) :=
  c1_validateLeaf_spec volumeLeaf (PyVal.int 150) (PyVal.int 50, true) rfl

/-! ## Concrete evaluations of the validation walk -/

theorem walkVolume_nil :
    walk volumeRules [] = some ([("volume", PyVal.int 50)], false) := by
  simp [walk, walkAux, validateLeaf, numericStep, typeStep, checkMin, checkMax,
    checkEnum, leafDefault, leafPyType, isNumericRule, isinst, dget, hasExtra,
    pyLt, asRat, PyVal.typeOf, pyIn, volumeRules, childData]
  rfl

theorem walkVolume_ghost :
    walk volumeRules [("ghost", PyVal.bool true)] =
      some ([("volume", PyVal.int 50)], true) := by
  simp [walk, walkAux, validateLeaf, numericStep, typeStep, checkMin, checkMax,
    checkEnum, leafDefault, leafPyType, isNumericRule, isinst, dget, hasExtra,
    pyLt, asRat, PyVal.typeOf, pyIn, volumeRules, childData]
  rfl

/-- C3 counterexample: on the rule tree
`{volume: {type: int, default: 50, min: 0, max: 100}}` and the empty input
`{}`, the corrected tree `{volume: 50}` differs from the input (the absent
leaf was filled with the default), yet `validate_tree` reports
`changed = False`. -/
theorem c3_counterexample :
    walk volumeRules [] = some ([("volume", PyVal.int 50)], false) ∧
    ([("volume", PyVal.int 50)] : Dict) ≠ [] :=
  ⟨walkVolume_nil, by simp⟩

/-- C4 counterexample: constructing the store over
`{volume: {type: int, default: 50, min: 0, max: 100}}` with an empty
persisted file (modelled as a file whose JSON parses to `{}`) yields the
data tree `{volume: 50}` but writes the persisted file zero times, not
once: filling an absent leaf with its default does not set `changed`, and
`__init__` saves only when `changed` is set. -/
theorem c4_counterexample :
    schemaInit volumeRules (some (some (PyVal.dict []))) =
      some ⟨[("volume", PyVal.int 50)], 0⟩ ∧ (0 : Nat) ≠ 1 := by
  refine ⟨?_, by decide⟩
  unfold schemaInit applyValidationAndCleanup loadOrCreateUserData
  rw [show (match PyVal.dict ([] : Dict) with
      | PyVal.dict d => d | _ => ([] : Dict)) = ([] : Dict) from rfl]
  rw [walkVolume_nil]
  rfl

/-- C4 (amended): with the scenario rule tree, a missing, unreadable, or
empty persisted file all yield the data tree `{volume: 50}` and zero
writes of the persisted file; construction persists exactly when the
validation walk flags `changed`, e.g. once when the file held an unknown
key. -/
theorem c4_init_scenario :
    schemaInit volumeRules Option.none = some ⟨[("volume", PyVal.int 50)], 0⟩ ∧
    schemaInit volumeRules (some Option.none) =
      some ⟨[("volume", PyVal.int 50)], 0⟩ ∧
    schemaInit volumeRules (some (some (PyVal.dict []))) =
      some ⟨[("volume", PyVal.int 50)], 0⟩ ∧
    schemaInit volumeRules (some (some (PyVal.dict [("ghost", PyVal.bool true)]))) =
      some ⟨[("volume", PyVal.int 50)], 1⟩ := by
  refine ⟨?_, ?_, ?_, ?_⟩ <;>
    unfold schemaInit applyValidationAndCleanup loadOrCreateUserData
  · rw [show (match PyVal.dict ([] : Dict) with
        | PyVal.dict d => d | _ => ([] : Dict)) = ([] : Dict) from rfl]
    rw [walkVolume_nil]
    rfl
  · rw [show (match PyVal.dict ([] : Dict) with
        | PyVal.dict d => d | _ => ([] : Dict)) = ([] : Dict) from rfl]
    rw [walkVolume_nil]
    rfl
  · rw [show (match PyVal.dict ([] : Dict) with
        | PyVal.dict d => d | _ => ([] : Dict)) = ([] : Dict) from rfl]
    rw [walkVolume_nil]
    rfl
  · rw [show (match PyVal.dict [("ghost", PyVal.bool true)] with
        | PyVal.dict d => d | _ => ([] : Dict)) = [("ghost", PyVal.bool true)] from rfl]
    rw [walkVolume_ghost]
    rfl

/-! ## Lemmas about the validation walk -/

theorem dget_cons_self {k : String} {v : PyVal} {d : Dict} :
    dget ((k, v) :: d) k = some v := by
  simp [dget]

theorem dget_cons_ne {k k2 : String} {v : PyVal} {d : Dict} (h : k ≠ k2) :
    dget ((k2, v) :: d) k = dget d k := by
  simp [dget, h]

theorem dget_mem {d : Dict} {k : String} {v : PyVal}
    (h : dget d k = some v) : (k, v) ∈ d := by
  induction d with
  | nil => exact absurd h (by simp [dget])
  | cons kv rest ih =>
    obtain ⟨k2, w⟩ := kv
    by_cases he : k = k2
    · subst he
      rw [dget_cons_self] at h
      cases h
      exact List.mem_cons_self _ _
    · rw [dget_cons_ne he] at h
      exact List.mem_cons_of_mem _ (ih h)

/-- A successful `walk` loop produces the rule keys, in rule order. -/
theorem walkAux_keys {r : Dict} : ∀ {d c : Dict} {ch : Bool},
    walkAux r d = some (c, ch) → c.map Prod.fst = r.map Prod.fst := by
  induction r with
  | nil =>
    intro d c ch h
    simp only [walkAux] at h
    cases h
    rfl
  | cons e rest ih =>
    intro d c ch h
    obtain ⟨name, rule⟩ := e
    simp only [walkAux] at h
    rcases Option.bind_eq_some.mp h with ⟨rc, hrest, hhead⟩
    match rule, hhead with
    | PyVal.dict rd, hhead =>
      dsimp only at hhead
      by_cases hl : (dget rd "type").isSome = true
      · rw [if_pos hl] at hhead
        rcases Option.bind_eq_some.mp hhead with ⟨vw, _, hv⟩
        cases hv
        simpa using ih hrest
      · rw [if_neg hl] at hhead
        rcases Option.bind_eq_some.mp hhead with ⟨cc, _, hv⟩
        cases hv
        simpa using ih hrest

/-- If the corrected tree has exactly the rule keys, the extra-key scan
finds nothing. -/
theorem hasExtra_of_keys {r c : Dict}
    (h : c.map Prod.fst = r.map Prod.fst) : hasExtra r c = false := by
  unfold hasExtra
  rw [List.any_eq_false]
  intro kv hkv
  have : kv.1 ∈ r.map Prod.fst := by
    rw [← h]
    exact List.mem_map_of_mem _ hkv
  rcases List.mem_map.mp this with ⟨rv, hrv, hk⟩
  simp only [Bool.not_eq_true', Bool.not_eq_false]
  rw [List.any_eq_true]
  exact ⟨rv, hrv, by simp [hk]⟩

/-- A key present in a data level that survives the extra-key scan is a
rule key at that level. -/
theorem hasExtra_false_mem {r d : Dict} {k : String} {v : PyVal}
    (hex : hasExtra r d = false) (h : dget d k = some v) :
    k ∈ r.map Prod.fst := by
  unfold hasExtra at hex
  rw [List.any_eq_false] at hex
  have hm := hex _ (dget_mem h)
  simp only [Bool.not_eq_true', Bool.not_eq_false, List.any_eq_true] at hm
  rcases hm with ⟨rv, hrv, he⟩
  rcases List.mem_map.mp (List.mem_map_of_mem Prod.fst hrv) with _
  have : rv.1 = k := by simpa using he
  rw [← this]
  exact List.mem_map_of_mem _ hrv

/-- The shape of a corrected tree against a rule tree: exactly the rule
keys in rule order, a value at every leaf position, and recursively shaped
sub-dicts at every group position. -/
inductive HasShape : Dict → Dict → Prop where
  | nil : HasShape [] []
  | leaf {name : String} {rd rest c : Dict} {v : PyVal} :
      (dget rd "type").isSome = true → HasShape rest c →
      HasShape ((name, PyVal.dict rd) :: rest) ((name, v) :: c)
  | group {name : String} {rd cc rest c : Dict} :
      (dget rd "type").isSome = false → HasShape rd cc → HasShape rest c →
      HasShape ((name, PyVal.dict rd) :: rest) ((name, PyVal.dict cc) :: c)

/-- Every successful walk produces a tree of exactly the rule shape. -/
theorem walkAux_shape : ∀ r : Dict, ∀ {d c : Dict} {ch : Bool},
    walkAux r d = some (c, ch) → HasShape r c := by
  refine ruleInd _ ?_ ?_
  · intro d c ch h
    simp only [walkAux] at h
    cases h
    exact HasShape.nil
  · intro name rule rest ihRule ihRest d c ch h
    simp only [walkAux] at h
    rcases Option.bind_eq_some.mp h with ⟨rc, hrest, hhead⟩
    match rule, hhead with
    | PyVal.dict rd, hhead =>
      dsimp only at hhead
      by_cases hl : (dget rd "type").isSome = true
      · rw [if_pos hl] at hhead
        rcases Option.bind_eq_some.mp hhead with ⟨vw, _, hv⟩
        cases hv
        exact HasShape.leaf hl (ihRest hrest)
      · rw [if_neg hl] at hhead
        rcases Option.bind_eq_some.mp hhead with ⟨cc, hcc, hv⟩
        cases hv
        rcases Option.map_eq_some'.mp hcc with ⟨⟨cc1, chA⟩, hA, hccEq⟩
        have hsub := ihRule rd rfl hA
        have hc1 : cc.1 = cc1 := by rw [← hccEq]
        rw [show PyVal.dict cc.1 = PyVal.dict cc1 from by rw [hc1]]
        exact HasShape.group (by simpa using hl) hsub (ihRest hrest)

/-- Well-formedness of a rule tree as a Python object: at every level the
keys are distinct (true of any Python dict), every rule value is a dict
(every node of a RuleTree is a Leaf or a Group), and every leaf's default
satisfies the leaf's own constraints. -/
inductive GoodRules : Dict → Prop where
  | nil : GoodRules []
  | leaf {name : String} {rd rest : Dict} :
      rest.all (fun rv => rv.1 != name) = true →
      (dget rd "type").isSome = true → LeafOK rd → GoodRules rest →
      GoodRules ((name, PyVal.dict rd) :: rest)
  | group {name : String} {rd rest : Dict} :
      rest.all (fun rv => rv.1 != name) = true →
      (dget rd "type").isSome = false → GoodRules rd → GoodRules rest →
      GoodRules ((name, PyVal.dict rd) :: rest)

theorem keys_ne_of_all {rest : Dict} {name k : String}
    (hnd : rest.all (fun rv => rv.1 != name) = true)
    (hk : k ∈ rest.map Prod.fst) : k ≠ name := by
  rcases List.mem_map.mp hk with ⟨rv, hrv, hke⟩
  rw [List.all_eq_true] at hnd
  have := hnd rv hrv
  simp only [bne_iff_ne, ne_eq, decide_eq_true_eq] at this
  rw [← hke]
  exact this

/-- Re-walking a successful walk's output (or any data level that agrees
with it on the rule keys) reproduces it exactly, with no `changed` flag. -/
theorem walkAux_idem : ∀ r : Dict, GoodRules r →
    ∀ {d c : Dict} {ch : Bool}, walkAux r d = some (c, ch) →
    ∀ c' : Dict, (∀ k, k ∈ r.map Prod.fst → dget c' k = dget c k) →
    walkAux r c' = some (c, false) := by
  refine ruleInd _ ?_ ?_
  · intro _ d c ch h c' _
    simp only [walkAux] at h ⊢
    cases h
    rfl
  · intro name rule rest ihRule ihRest hg d c ch h c' hagree
    simp only [walkAux] at h ⊢
    rcases Option.bind_eq_some.mp h with ⟨⟨rc1, rc2⟩, hrest, hhead⟩
    cases hg with
    | @leaf _ rd _ hnd hl hok hgrest =>
      dsimp only at hhead ⊢
      rw [if_pos hl] at hhead
      rcases Option.bind_eq_some.mp hhead with ⟨vw, hvw, hv⟩
      cases hv
      have hrest' : walkAux rest c' = some (rc1, false) := by
        refine ihRest hgrest hrest c' ?_
        intro k hk
        have hkn : k ≠ name := keys_ne_of_all hnd hk
        rw [hagree k (by simp [hk]), dget_cons_ne hkn]
      rw [hrest']
      simp only [Option.some_bind]
      rw [if_pos hl]
      have hc'name : dget c' name = some vw.1 := by
        rw [hagree name (by simp), dget_cons_self]
      rw [hc'name]
      simp only [Option.getD_some]
      rw [validateLeaf_stable hok hvw]
      simp
    | @group _ rd _ hnd hl hgsub hgrest =>
      dsimp only at hhead ⊢
      rw [if_neg (by simp [hl])] at hhead
      rcases Option.bind_eq_some.mp hhead with ⟨cc, hcc, hv⟩
      cases hv
      rcases Option.map_eq_some'.mp hcc with ⟨⟨cc1, chA⟩, hA, hccEq⟩
      have hcc1 : cc.1 = cc1 := by rw [← hccEq]
      have hrest' : walkAux rest c' = some (rc1, false) := by
        refine ihRest hgrest hrest c' ?_
        intro k hk
        have hkn : k ≠ name := keys_ne_of_all hnd hk
        rw [hagree k (by simp [hk]), dget_cons_ne hkn]
      rw [hrest']
      simp only [Option.some_bind]
      rw [if_neg (by simp [hl])]
      have hc'name : dget c' name = some (PyVal.dict cc.1) := by
        rw [hagree name (by simp), dget_cons_self]
      have hchild : childData c' name = (cc.1, false) := by
        unfold childData
        rw [hc'name]
      rw [hchild]
      have hA' : walkAux rd cc1 = some (cc1, false) :=
        ihRule rd rfl hgsub hA cc1 (fun k _ => rfl)
      have hex : hasExtra rd cc1 = false :=
        hasExtra_of_keys (walkAux_keys hA')
      rw [hcc1, hA']
      simp only [Option.map_some', hex, Bool.or_false, Option.some_bind]

/-- C2: over a well-formed rule tree (distinct keys per level, every node
a Leaf or Group dict, every Leaf default satisfying its own constraints),
any successful `validate_tree` run produces a tree of exactly the rule
shape, and validating the corrected tree again returns the same tree with
`changed = False`. -/
theorem c2_shape_idempotent (r : Dict) (hg : GoodRules r) {d c : Dict}
    {ch : Bool} (hw : walk r d = some (c, ch)) :
    HasShape r c ∧ walk r c = some (c, false) := by
  unfold walk at hw
  rcases Option.map_eq_some'.mp hw with ⟨⟨c0, chA⟩, hA, hEq⟩
  have hc : c0 = c := congrArg Prod.fst hEq
  subst hc
  constructor
  · exact walkAux_shape r hA
  · have hi := walkAux_idem r hg hA c0 (fun k _ => rfl)
    unfold walk
    rw [hi]
    simp [hasExtra_of_keys (walkAux_keys hA)]

/-- The scenario rule tree is well-formed. -/
theorem goodRules_volume : GoodRules volumeRules :=
  GoodRules.leaf (by rfl) (by rfl) (by rfl) GoodRules.nil

/-- Witness for `c2_shape_idempotent`: the scenario rule tree applied to
the data `{ghost: true}`. -/
theorem c2_witness :
    HasShape volumeRules [("volume", PyVal.int 50)] ∧
    walk volumeRules [("volume", PyVal.int 50)] =
      some ([("volume", PyVal.int 50)], false) :=
  c2_shape_idempotent volumeRules goodRules_volume walkVolume_ghost

/-- A leaf validation that reports `changed = False` returned the
candidate itself. -/
theorem validateLeaf_false {rule : Dict} {value v : PyVal}
    (h : validateLeaf rule value = some (v, false)) : v = value := by
  unfold validateLeaf at h
  rcases Option.bind_eq_some.mp h with ⟨vc2, hnum, henum⟩
  rcases checkEnum_cases henum with h3 | h3
  swap
  · exact absurd (congrArg Prod.snd h3) (by simp)
  rcases numericStep_cases hnum with h2 | h2
  swap
  · rw [h2] at h3
    exact absurd (congrArg Prod.snd h3) (by simp)
  rcases typeStep_cases rule value with ⟨h4, _⟩ | h4
  · rw [h4] at h2
    rw [h2] at h3
    exact congrArg Prod.fst h3
  · rw [h4] at h2
    rw [h2] at h3
    exact absurd (congrArg Prod.snd h3) (by simp)

/-- Containment of one value in another: equal, or both dicts such that
every key of the first is a key of the second and the corresponding
values are recursively contained. -/
inductive VLE : PyVal → PyVal → Prop where
  | refl (v : PyVal) : VLE v v
  | dict {d c : Dict} :
      (∀ k, (dget d k).isSome = true → (dget c k).isSome = true) →
      (∀ k v w, dget d k = some v → dget c k = some w → VLE v w) →
      VLE (PyVal.dict d) (PyVal.dict c)

/-- When the walk loop reports no change, every input entry at a rule key
reappears (up to recursive insertion of missing entries) in the output. -/
theorem walkAux_nochange_sub : ∀ r : Dict,
    ∀ {d c : Dict}, walkAux r d = some (c, false) →
    ∀ k v, dget d k = some v → k ∈ r.map Prod.fst →
    ∃ w, dget c k = some w ∧ VLE v w := by
  refine ruleInd _ ?_ ?_
  · intro d c _ k v _ hmem
    simp at hmem
  · intro name rule rest ihRule ihRest d c h k v hkv hmem
    simp only [walkAux] at h
    rcases Option.bind_eq_some.mp h with ⟨⟨rc1, rc2⟩, hrest, hhead⟩
    match rule, hhead, hmem with
    | PyVal.dict rd, hhead, hmem =>
      dsimp only at hhead
      by_cases hl : (dget rd "type").isSome = true
      · rw [if_pos hl] at hhead
        rcases Option.bind_eq_some.mp hhead with ⟨vw, hvw, hv⟩
        have hv' := Option.some.inj hv
        have hc := congrArg Prod.fst hv'
        have hch := congrArg Prod.snd hv'
        simp only at hc hch
        subst hc
        rcases Bool.or_eq_false_iff.mp hch with ⟨hvw2, hrc2⟩
        by_cases hkname : k = name
        · subst hkname
          rw [hkv] at hvw
          simp only [Option.getD_some] at hvw
          rw [show vw = (vw.1, vw.2) from rfl, hvw2] at hvw
          have := validateLeaf_false hvw
          refine ⟨vw.1, ?_, ?_⟩
          · exact dget_cons_self
          · rw [this]
            exact VLE.refl v
        · have hmem' : k ∈ rest.map Prod.fst := by
            simpa [hkname] using hmem
          subst hrc2
          rcases ihRest hrest k v hkv hmem' with ⟨w, hw, hvle⟩
          exact ⟨w, by rw [dget_cons_ne hkname]; exact hw, hvle⟩
      · rw [if_neg hl] at hhead
        rcases Option.bind_eq_some.mp hhead with ⟨cc, hcc, hv⟩
        have hv' := Option.some.inj hv
        have hc := congrArg Prod.fst hv'
        have hch := congrArg Prod.snd hv'
        simp only at hc hch
        subst hc
        rcases Bool.or_eq_false_iff.mp hch with ⟨hch1, hrc2⟩
        rcases Bool.or_eq_false_iff.mp hch1 with ⟨hcdf, hcc2⟩
        rcases Option.map_eq_some'.mp hcc with ⟨⟨cc1, chA⟩, hA, hccEq⟩
        have hcc1 : cc.1 = cc1 := by rw [← hccEq]
        have hccA : cc.2 = (chA || hasExtra rd (childData d name).1) := by
          rw [← hccEq]
        rcases Bool.or_eq_false_iff.mp (hccA ▸ hcc2) with ⟨hchA, hexd⟩
        by_cases hkname : k = name
        · subst hkname
          match v, hkv, hcdf with
          | PyVal.dict dd, hkv, hcdf =>
            have hchild : (childData d k).1 = dd := by
              unfold childData
              rw [hkv]
            rw [hchild] at hA hexd
            subst hchA
            refine ⟨PyVal.dict cc.1, dget_cons_self, ?_⟩
            rw [hcc1]
            refine VLE.dict ?_ ?_
            · intro k2 hk2
              rcases Option.isSome_iff_exists.mp hk2 with ⟨v2, hv2⟩
              rcases ihRule rd rfl hA k2 v2 hv2 (hasExtra_false_mem hexd hv2)
                with ⟨w, hw, _⟩
              rw [hw]
              rfl
            · intro k2 v2 w2 hv2 hw2
              rcases ihRule rd rfl hA k2 v2 hv2 (hasExtra_false_mem hexd hv2)
                with ⟨w, hw, hvle⟩
              obtain rfl := Option.some.inj (hw.symm.trans hw2)
              exact hvle
          | PyVal.none, hkv, hcdf =>
            exact absurd hcdf (by unfold childData; rw [hkv]; simp)
          | PyVal.bool b, hkv, hcdf =>
            exact absurd hcdf (by unfold childData; rw [hkv]; simp)
          | PyVal.int n, hkv, hcdf =>
            exact absurd hcdf (by unfold childData; rw [hkv]; simp)
          | PyVal.float q, hkv, hcdf =>
            exact absurd hcdf (by unfold childData; rw [hkv]; simp)
          | PyVal.str s, hkv, hcdf =>
            exact absurd hcdf (by unfold childData; rw [hkv]; simp)
          | PyVal.list xs, hkv, hcdf =>
            exact absurd hcdf (by unfold childData; rw [hkv]; simp)
        · have hmem' : k ∈ rest.map Prod.fst := by
            simpa [hkname] using hmem
          subst hrc2
          rcases ihRest hrest k v hkv hmem' with ⟨w, hw, hvle⟩
          exact ⟨w, by rw [dget_cons_ne hkname]; exact hw, hvle⟩

/-- C3 (amended): when `validate_tree` reports `changed = False`, every
entry of the input reappears unchanged in the corrected tree (which may
still differ from the input by inserting entries for absent leaves and
groups); conversely any value correction, non-mapping group, or extra key
does set `changed`.  The claim as stated — `changed` is true whenever the
corrected tree differs from the input — fails for absent leaves filled
with defaults (`c3_counterexample`). -/
theorem c3_nochange_contained (r d c : Dict)
    (hw : walk r d = some (c, false)) :
    VLE (PyVal.dict d) (PyVal.dict c) := by
  unfold walk at hw
  rcases Option.map_eq_some'.mp hw with ⟨⟨c0, chA⟩, hA, hEq⟩
  have hc : c0 = c := congrArg Prod.fst hEq
  have hflag : (chA || hasExtra r d) = false := congrArg Prod.snd hEq
  rcases Bool.or_eq_false_iff.mp hflag with ⟨hchA, hex⟩
  subst hc
  subst hchA
  refine VLE.dict ?_ ?_
  · intro k hk
    rcases Option.isSome_iff_exists.mp hk with ⟨v, hv⟩
    rcases walkAux_nochange_sub r hA k v hv (hasExtra_false_mem hex hv)
      with ⟨w, hw, _⟩
    rw [hw]
    rfl
  · intro k v w hv hw
    rcases walkAux_nochange_sub r hA k v hv (hasExtra_false_mem hex hv)
      with ⟨w2, hw2, hvle⟩
    obtain rfl := Option.some.inj (hw2.symm.trans hw)
    exact hvle

/-- Witness for `c3_nochange_contained`: the scenario rule tree on the
empty input, whose corrected tree adds the defaulted leaf. -/
theorem c3_witness :
    VLE (PyVal.dict []) (PyVal.dict [("volume", PyVal.int 50)]) :=
  c3_nochange_contained volumeRules [] [("volume", PyVal.int 50)]
    walkVolume_nil

/-! ## Lemmas about resolution and in-place update -/

theorem dget_map_set {d : Dict} {k : String} (v : PyVal)
    (hs : (dget d k).isSome = true) :
    dget (d.map (fun kv => if kv.1 == k then (k, v) else kv)) k = some v := by
  induction d with
  | nil => simp [dget] at hs
  | cons kv rest ih =>
    obtain ⟨k2, w⟩ := kv
    by_cases he : k = k2
    · subst he
      have hh : (if ((k, w).1 == k) = true then (k, v) else (k, w)) = (k, v) := by
        simp
      rw [List.map_cons, hh]
      exact dget_cons_self
    · have h2 : (k2 == k) = false := by
        simp [beq_eq_false_iff_ne]
        exact Ne.symm he
      rw [dget_cons_ne he] at hs
      simp only [List.map_cons, h2, Bool.false_eq_true, if_false]
      rw [dget_cons_ne he]
      exact ih hs

theorem dget_append_absent {d : Dict} {k : String} (v : PyVal)
    (hs : dget d k = Option.none) :
    dget (d ++ [(k, v)]) k = some v := by
  induction d with
  | nil => simp [dget]
  | cons kv rest ih =>
    obtain ⟨k2, w⟩ := kv
    by_cases he : k = k2
    · subst he
      rw [dget_cons_self] at hs
      cases hs
    · rw [dget_cons_ne he] at hs
      rw [List.cons_append, dget_cons_ne he]
      exact ih hs

/-- After `d[k] = v`, looking up `k` yields `v`. -/
theorem dget_dset_self {d : Dict} {k : String} {v : PyVal} :
    dget (dset d k v) k = some v := by
  unfold dset
  split
  next hs => exact dget_map_set v hs
  next hs =>
    exact dget_append_absent v (Option.not_isSome_iff_eq_none.mp (by simpa using hs))

/-- The functional update along a resolvable parent path succeeds and the
re-resolved parent is the original parent with the key set. -/
theorem resolveGo_update {node : Dict} (ps : List String) :
    ∀ {d : Dict}, resolveGo d ps = .ok node → ∀ (key : String) (v : PyVal),
    ∃ d', updateGo d ps key v = some d' ∧
      resolveGo d' ps = Except.ok (dset node key v) := by
  induction ps with
  | nil =>
    intro d h key v
    simp only [resolveGo] at h
    cases h
    exact ⟨dset node key v, by simp [updateGo], by simp [resolveGo]⟩
  | cons name rest ih =>
    intro d h key v
    simp only [resolveGo] at h
    split at h
    · exact absurd h (by simp)
    next child heq =>
      rcases ih h key v with ⟨c', hup, hres⟩
      refine ⟨dset d name (PyVal.dict c'), ?_, ?_⟩
      · simp only [updateGo]
        rw [heq]
        dsimp only
        rw [hup]
      · simp only [resolveGo]
        rw [dget_dset_self]
        exact hres
    · exact absurd h (by simp)

/-- C5: when the validated form of the value equals (by Python `==`) the
value currently stored at a resolvable path, `Schema.set` is a complete
no-op: the data tree is unchanged, nothing is saved, no `changed` signal
is emitted, and no error is raised — regardless of whether a save would
have succeeded. -/
theorem c5_set_noop (rules data : Dict) (path : String) (value valid : PyVal)
    (node : Dict) (key : String) (saveOk : Bool)
    (hval : validateSingleValue rules path value = .ok valid)
    (hres : resolveParentAndKey data path = .ok (node, key))
    (heq : pyEq ((dget node key).getD .none) valid = true) :
    schemaSet rules data path value saveOk = ⟨data, false, [], Option.none⟩ := by
  unfold schemaSet
  rw [hval]
  dsimp only
  rw [hres]
  dsimp only
  rw [if_pos heq]

/-- Witness for `c5_set_noop`: setting `volume` to its stored value `50`. -/
theorem c5_witness :
    schemaSet volumeRules [("volume", PyVal.int 50)] "volume" (PyVal.int 50)
      true = ⟨[("volume", PyVal.int 50)], false, [], Option.none⟩ :=
  c5_set_noop volumeRules [("volume", PyVal.int 50)] "volume" (PyVal.int 50)
    (PyVal.int 50) [("volume", PyVal.int 50)] "volume" true rfl rfl rfl

/-- C6: when `Schema.set` changes the stored value and the synchronous
`_save` raises, the error is surfaced to the caller and the in-memory data
tree nonetheless holds the new validated value: a subsequent `get` on the
same path returns it. -/
theorem c6_persist_failure (rules data : Dict) (path : String)
    (value valid : PyVal) (node : Dict) (key : String)
    (hval : validateSingleValue rules path value = .ok valid)
    (hres : resolveParentAndKey data path = .ok (node, key))
    (hne : pyEq ((dget node key).getD .none) valid = false) :
    (schemaSet rules data path value false).err = some SetErr.persist ∧
    schemaGet (schemaSet rules data path value false).data path =
      .ok valid := by
  unfold schemaSet
  rw [hval]
  dsimp only
  rw [hres]
  dsimp only
  rw [hne]
  simp only [Bool.false_eq_true, if_false]
  simp only [resolveParentAndKey] at hres
  split at hres
  · exact absurd hres (by simp)
  next last hlast =>
    split at hres
    · exact absurd hres (by simp)
    next nd hgo =>
      have hinj := Except.ok.inj hres
      have hnd : nd = node := congrArg Prod.fst hinj
      have hkey : last = key := congrArg Prod.snd hinj
      subst hnd
      subst hkey
      rcases resolveGo_update _ hgo last valid with ⟨d', hup, hres'⟩
      rw [hup]
      simp only [Option.getD_some]
      refine ⟨by trivial, ?_⟩
      simp only [schemaGet, resolveParentAndKey]
      rw [hlast]
      dsimp only
      rw [hres']
      dsimp only
      rw [dget_dset_self]

/-- Witness for `c6_persist_failure`: setting `volume` from `50` to `60`
with a failing save. -/
theorem c6_witness :
    (schemaSet volumeRules [("volume", PyVal.int 50)] "volume"
        (PyVal.int 60) false).err = some SetErr.persist ∧
    schemaGet (schemaSet volumeRules [("volume", PyVal.int 50)] "volume"
        (PyVal.int 60) false).data "volume" = .ok (PyVal.int 60) :=
  c6_persist_failure volumeRules [("volume", PyVal.int 50)] "volume"
    (PyVal.int 60) (PyVal.int 60) [("volume", PyVal.int 50)] "volume"
    rfl rfl rfl

/-- C9: for a mutating `Schema.set` call, the `changed` signal is emitted
exactly when the synchronous `_save` write succeeds; when the write
raises, no event is emitted even though the in-memory tree was updated. -/
theorem c9_event_iff_saved (rules data : Dict) (path : String)
    (value valid : PyVal) (node : Dict) (key : String) (saveOk : Bool)
    (hval : validateSingleValue rules path value = .ok valid)
    (hres : resolveParentAndKey data path = .ok (node, key))
    (hne : pyEq ((dget node key).getD .none) valid = false) :
    (schemaSet rules data path value saveOk).events =
      if saveOk then [(path, valid)] else [] := by
  unfold schemaSet
  rw [hval]
  dsimp only
  rw [hres]
  dsimp only
  rw [hne]
  simp only [Bool.false_eq_true, if_false]
  cases saveOk <;> rfl

/-- Witness for `c9_event_iff_saved`: setting `volume` from `50` to `60`
with a failing save emits nothing. -/
theorem c9_witness :
    (schemaSet volumeRules [("volume", PyVal.int 50)] "volume"
        (PyVal.int 60) false).events = if false then [("volume", PyVal.int 60)] else [] :=
  c9_event_iff_saved volumeRules [("volume", PyVal.int 50)] "volume"
    (PyVal.int 60) (PyVal.int 60) [("volume", PyVal.int 50)] "volume" false
    rfl rfl rfl

/-! ## C10: the empty-path branch is unreachable -/

theorem splitChars_ne_nil (c : Char) (l : List Char) :
    splitChars c l ≠ [] := by
  cases l with
  | nil => simp [splitChars]
  | cons x xs =>
    simp only [splitChars]
    split
    · simp
    · split <;> simp

theorem resolveGo_ne_empty (ps : List String) : ∀ (d : Dict),
    resolveGo d ps ≠ Except.error ResolveErr.emptyPath := by
  induction ps with
  | nil => intro d; simp [resolveGo]
  | cons name rest ih =>
    intro d
    simp only [resolveGo]
    split
    · simp
    · exact ih _
    · simp

/-- C10: Python's `split` never returns an empty list, so the
`Empty dotted path` branch of `_resolve_parent_and_key` is unreachable;
the empty path resolves to the root with key `""`, and `get("")` fails
with an ordinary missing-key `KeyError` when the root has no `""` key. -/
theorem c10_empty_path_unreachable (s : String) (root : Dict) :
    splitDots s ≠ [] ∧
    resolveParentAndKey root s ≠ Except.error ResolveErr.emptyPath ∧
    resolveParentAndKey root "" = Except.ok (root, "") ∧
    (dget root "" = Option.none →
      schemaGet root "" = Except.error (ResolveErr.keyError "")) := by
  have hsplit : splitDots s ≠ [] := by
    unfold splitDots
    simp only [ne_eq, List.map_eq_nil_iff]
    exact splitChars_ne_nil '.' s.toList
  refine ⟨hsplit, ?_, rfl, ?_⟩
  · simp only [resolveParentAndKey]
    split
    next hnone =>
      exact absurd (List.getLast?_eq_none_iff.mp hnone) hsplit
    next last hlast =>
      split
      next e hgo =>
        intro hc
        have he : e = ResolveErr.emptyPath := by
          cases hc
          rfl
        subst he
        exact resolveGo_ne_empty _ _ hgo
      · simp
  · intro habs
    unfold schemaGet
    rw [show resolveParentAndKey root "" = Except.ok (root, "") from rfl]
    dsimp only
    rw [habs]

/-- Witness for `c10_empty_path_unreachable` at the empty path and an
empty root. -/
theorem c10_witness :
    splitDots "" ≠ [] ∧
    resolveParentAndKey ([] : Dict) "" ≠ Except.error ResolveErr.emptyPath ∧
    schemaGet ([] : Dict) "" = Except.error (ResolveErr.keyError "") :=
  ⟨(c10_empty_path_unreachable "" []).1,
   (c10_empty_path_unreachable "" []).2.1,
   (c10_empty_path_unreachable "" []).2.2.2 rfl⟩

/-! ## `Schema.bind` and the returned `Binding` handle -/

/-- Handler registry of one GObject: connected handler ids in connection
order, and the next fresh id.  GObject handler ids start at 1, so id `0`
is never issued. -/
structure SignalState where
  connected : List Nat
  nextId : Nat

/-- `gobject.connect(...)`: registers a new handler and returns its id. -/
def connectSig (st : SignalState) : SignalState × Nat :=
  (⟨st.connected ++ [st.nextId], st.nextId + 1⟩, st.nextId)

/-- `gobject.disconnect(handler_id)`: removes the handler if present.
Disconnecting a stale id logs a GLib warning but raises no Python
exception, so the operation is total. -/
def disconnectSig (st : SignalState) (h : Nat) : SignalState :=
  ⟨st.connected.filter (fun x => x ≠ h), st.nextId⟩

/-- The two signal registries `Schema.bind` touches: the schema's own
`changed` signal and the target widget's `notify::prop` signal. -/
structure BindWorld where
  schemaSig : SignalState
  targetSig : SignalState

/-- The closure state captured by the `Binding` class inside `Schema.bind`:
`handler_schema` and the possibly-`None` `handler_widget`. -/
structure Binding where
  handlerSchema : Nat
  handlerWidget : Option Nat

/-- Connection effects and return value of `Schema.bind`: raises
`AttributeError` when the target lacks the property; connects the schema
`changed` handler unless `preserve_cursor`; connects the widget `notify`
handler when `bidirectional`; returns a `Binding` object only when
`preserve_cursor` is not used (otherwise the function falls off the end
and returns `None`).  The `sync_create` value push touches no connection
state and is not modelled here. -/
def bindModel (w : BindWorld) (targetHasProp bidirectional preserveCursor : Bool) :
    Except Unit (BindWorld × Option Binding) :=
  if targetHasProp = false then .error () else
  let p1 : BindWorld × Option Nat :=
    if preserveCursor = false then
      let (s, h) := connectSig w.schemaSig
      (⟨s, w.targetSig⟩, some h)
    else (w, Option.none)
  let p2 : BindWorld × Option Nat :=
    if bidirectional then
      let (t, h) := connectSig p1.1.targetSig
      (⟨p1.1.schemaSig, t⟩, some h)
    else (p1.1, Option.none)
  if preserveCursor = false then
    .ok (p2.1, some ⟨(p1.2).getD 0, p2.2⟩)
  else .ok (p2.1, Option.none)

/-- `Binding.unbind()`: disconnect the schema handler, then
`if handler_widget:` (Python truthiness: false for `None` and for id `0`)
disconnect the widget handler. -/
def unbindModel (b : Binding) (w : BindWorld) : BindWorld :=
  let w1 : BindWorld := ⟨disconnectSig w.schemaSig b.handlerSchema, w.targetSig⟩
  match b.handlerWidget with
  | some h => if h ≠ 0 then ⟨w1.schemaSig, disconnectSig w1.targetSig h⟩ else w1
  | Option.none => w1

theorem disconnectSig_idem (st : SignalState) (h : Nat) :
    disconnectSig (disconnectSig st h) h = disconnectSig st h := by
  unfold disconnectSig
  simp [List.filter_filter]

/-- C7 counterexample: a successful `bind` with `preserve_cursor=True`
(and default `bidirectional=True`) returns `None`, not a `Binding`
handle. -/
theorem c7_counterexample :
    bindModel ⟨⟨[], 1⟩, ⟨[], 1⟩⟩ true true true =
      .ok (⟨⟨[], 1⟩, ⟨[1], 2⟩⟩, Option.none) := rfl

/-- C7 (amended): a successful `bind` without `preserve_cursor` (any
`bidirectional` setting) returns a `Binding` handle exposing `unbind()`,
and calling `unbind()` a second time on the same handle is a no-op that
raises no exception: it leaves the state exactly as after the first
call. -/
theorem c7_bind_handle_unbind_idem (w : BindWorld) (bidir : Bool) :
    (∃ w2 b, bindModel w true bidir false = .ok (w2, some b)) ∧
    (∀ (b : Binding) (u : BindWorld),
      unbindModel b (unbindModel b u) = unbindModel b u) := by
  constructor
  · cases bidir
    · exact ⟨_, _, rfl⟩
    · exact ⟨_, _, rfl⟩
  · intro b u
    obtain ⟨hs, hw⟩ := b
    cases hw with
    | none => simp [unbindModel, disconnectSig_idem]
    | some h =>
      by_cases h0 : h = 0
      · subst h0
        simp [unbindModel, disconnectSig_idem]
      · simp [unbindModel, h0, disconnectSig_idem]

/-! ## The `Linker` connection registry (`linker.py`) -/

/-- External GObject state touched by a `Linker`: the still-active property
bindings and the connected `(object, handler)` pairs. -/
structure GWorld where
  activeBindings : List Nat
  connectedHandlers : List (Nat × Nat)

/-- The owner's registry: `self._linker_bindings` (registration order) and
`self._linker_connections` (objects in insertion order, each with its
handler ids in registration order). -/
structure LinkerState where
  linkerBindings : List Nat
  linkerConnections : List (Nat × List Nat)

/-- `GObject.Binding.unbind()`. -/
def gUnbind (w : GWorld) (b : Nat) : GWorld :=
  ⟨w.activeBindings.filter (fun x => x ≠ b), w.connectedHandlers⟩

/-- `gobject.handler_is_connected(handler_id)`. -/
def handlerIsConnected (w : GWorld) (o h : Nat) : Bool :=
  decide ((o, h) ∈ w.connectedHandlers)

/-- `gobject.disconnect(handler_id)`. -/
def gDisconnect (w : GWorld) (o h : Nat) : GWorld :=
  ⟨w.activeBindings, w.connectedHandlers.filter (fun p => p ≠ (o, h))⟩

/-- `Linker.unbind_all()`: unbind every stored binding in registration
order, then clear the list.  Also returns the list of unbind calls made,
in order. -/
def unbindAll (L : LinkerState) (w : GWorld) :
    LinkerState × GWorld × List Nat :=
  (⟨[], L.linkerConnections⟩, L.linkerBindings.foldl gUnbind w,
    L.linkerBindings)

/-- One iteration of the outer `for gobject, handlers in ...` loop of
`disconnect_all`: walk the object's handlers in registration order,
disconnecting each one that is still connected, extending the trace. -/
def disconnectEntry (acc : GWorld × List (Nat × Nat)) (e : Nat × List Nat) :
    GWorld × List (Nat × Nat) :=
  e.2.foldl (fun a h =>
    if handlerIsConnected a.1 e.1 h
    then (gDisconnect a.1 e.1 h, a.2 ++ [(e.1, h)])
    else a) acc

/-- `Linker.disconnect_all()`: disconnect every registered handler that is
still connected, object by object in insertion order, then clear the
mapping.  Also returns the disconnect calls made, in order. -/
def disconnectAll (L : LinkerState) (w : GWorld) :
    LinkerState × GWorld × List (Nat × Nat) :=
  let r := L.linkerConnections.foldl disconnectEntry (w, [])
  (⟨L.linkerBindings, []⟩, r.1, r.2)

/-- `Linker.link_teardown()`: `unbind_all()` then `disconnect_all()`.
Returns the final registry, the final external state, and the traces of
unbind and disconnect calls. -/
def linkTeardown (L : LinkerState) (w : GWorld) :
    LinkerState × GWorld × List Nat × List (Nat × Nat) :=
  let u := unbindAll L w
  let d := disconnectAll u.1 u.2.1
  (d.1, d.2.1, u.2.2, d.2.2)

/-- The registered `(object, handler)` pairs of a registry, in
registration order. -/
def regOrder (L : LinkerState) : List (Nat × Nat) :=
  L.linkerConnections.flatMap (fun e => e.2.map (fun h => (e.1, h)))

/-- Walking one object's handler list disconnects exactly the registered
pairs, in registration order, provided they are distinct and connected. -/
theorem disconnectEntry_spec (o : Nat) :
    ∀ (hs : List Nat) (w0 : GWorld) (tr : List (Nat × Nat)),
    (∀ h ∈ hs, (o, h) ∈ w0.connectedHandlers) →
    (hs.map (fun h => (o, h))).Nodup →
    (disconnectEntry (w0, tr) (o, hs)).2 = tr ++ hs.map (fun h => (o, h)) ∧
    (∀ p, p ∈ (disconnectEntry (w0, tr) (o, hs)).1.connectedHandlers ↔
      (p ∈ w0.connectedHandlers ∧ p ∉ hs.map (fun h => (o, h)))) := by
  intro hs
  induction hs with
  | nil =>
    intro w0 tr _ _
    constructor
    · simp [disconnectEntry]
    · intro p
      simp [disconnectEntry]
  | cons h rest ih =>
    intro w0 tr hconn hnd
    have hc : handlerIsConnected w0 o h = true := by
      unfold handlerIsConnected
      simp only [decide_eq_true_eq]
      exact hconn h (List.mem_cons_self _ _)
    have hstep : disconnectEntry (w0, tr) (o, h :: rest) =
        disconnectEntry (gDisconnect w0 o h, tr ++ [(o, h)]) (o, rest) := by
      simp only [disconnectEntry, List.foldl_cons, hc, if_true]
    have hne : ∀ h2 ∈ rest, h2 ≠ h := by
      intro h2 hh2 he
      subst he
      have := (List.nodup_cons.mp hnd).1
      exact this (List.mem_map_of_mem _ hh2)
    have hconn' : ∀ h2 ∈ rest, (o, h2) ∈ (gDisconnect w0 o h).connectedHandlers := by
      intro h2 hh2
      unfold gDisconnect
      simp only [List.mem_filter, decide_eq_true_eq]
      refine ⟨hconn h2 (List.mem_cons_of_mem _ hh2), ?_⟩
      simp only [ne_eq, Prod.mk.injEq, true_and]
      exact hne h2 hh2
    have hnd' : (rest.map (fun h => (o, h))).Nodup := (List.nodup_cons.mp hnd).2
    rcases ih (gDisconnect w0 o h) (tr ++ [(o, h)]) hconn' hnd' with ⟨htr, hmem⟩
    rw [hstep]
    constructor
    · rw [htr]
      simp
    · intro p
      rw [hmem p]
      unfold gDisconnect
      simp only [List.mem_filter, decide_eq_true_eq, List.map_cons,
        List.mem_cons, ne_eq]
      constructor
      · rintro ⟨⟨hp, hp2⟩, hp3⟩
        exact ⟨hp, by simp [hp2, hp3]⟩
      · rintro ⟨hp, hp2⟩
        simp only [not_or] at hp2
        exact ⟨⟨hp, hp2.1⟩, hp2.2⟩

/-- The outer loop of `disconnect_all` disconnects exactly the registered
pairs of all entries, in registration order. -/
theorem foldl_disconnectEntry_trace :
    ∀ (es : List (Nat × List Nat)) (w0 : GWorld) (tr : List (Nat × Nat)),
    (es.flatMap (fun e => e.2.map (fun h => (e.1, h)))).Nodup →
    (∀ p ∈ es.flatMap (fun e => e.2.map (fun h => (e.1, h))),
      p ∈ w0.connectedHandlers) →
    (es.foldl disconnectEntry (w0, tr)).2 =
      tr ++ es.flatMap (fun e => e.2.map (fun h => (e.1, h))) := by
  intro es
  induction es with
  | nil =>
    intro w0 tr _ _
    simp
  | cons e rest ih =>
    intro w0 tr hnd hconn
    obtain ⟨o, hs⟩ := e
    simp only [List.flatMap_cons] at hnd hconn
    have hnd1 : (hs.map (fun h => (o, h))).Nodup := hnd.of_append_left
    have hnd2 := hnd.of_append_right
    have hdisj := List.disjoint_of_nodup_append hnd
    have hconn1 : ∀ h ∈ hs, (o, h) ∈ w0.connectedHandlers := by
      intro h hh
      exact hconn _ (List.mem_append_left _ (List.mem_map_of_mem _ hh))
    rcases disconnectEntry_spec o hs w0 tr hconn1 hnd1 with ⟨htr, hmem⟩
    rw [List.foldl_cons]
    have heta : disconnectEntry (w0, tr) (o, hs) =
        ((disconnectEntry (w0, tr) (o, hs)).1,
         (disconnectEntry (w0, tr) (o, hs)).2) := rfl
    rw [heta]
    rw [ih _ _ hnd2 ?_]
    · rw [htr]
      simp
    · intro p hp
      rw [hmem p]
      refine ⟨hconn _ (List.mem_append_right _ hp), ?_⟩
      intro hpin
      exact (hdisj hpin) hp

/-- The `unbind` loop does not touch signal connections. -/
theorem foldl_gUnbind_connected (bs : List Nat) : ∀ (w : GWorld),
    (bs.foldl gUnbind w).connectedHandlers = w.connectedHandlers := by
  induction bs with
  | nil => intro w; rfl
  | cons b rest ih =>
    intro w
    rw [List.foldl_cons, ih]
    rfl

/-- C8: `link_teardown` clears the registry; calling it a second time
produces exactly the same end state with no external unbind/disconnect
calls (so nothing can throw); the first call unbinds the stored bindings
in registration order and — when the registered handlers are distinct and
connected — disconnects exactly the registered handler pairs in
registration order. -/
theorem c8_teardown (L : LinkerState) (w : GWorld)
    (hnd : (regOrder L).Nodup)
    (hconn : ∀ p ∈ regOrder L, p ∈ w.connectedHandlers) :
    ((linkTeardown L w).1.linkerBindings = [] ∧
     (linkTeardown L w).1.linkerConnections = []) ∧
    linkTeardown (linkTeardown L w).1 (linkTeardown L w).2.1 =
      ((linkTeardown L w).1, (linkTeardown L w).2.1, [], []) ∧
    (linkTeardown L w).2.2.1 = L.linkerBindings ∧
    (linkTeardown L w).2.2.2 = regOrder L := by
  refine ⟨⟨rfl, rfl⟩, rfl, rfl, ?_⟩
  show (L.linkerConnections.foldl disconnectEntry
      (L.linkerBindings.foldl gUnbind w, [])).2 = regOrder L
  rw [foldl_disconnectEntry_trace L.linkerConnections _ [] hnd ?_]
  · simp [regOrder]
  · intro p hp
    rw [foldl_gUnbind_connected]
    exact hconn p hp

/-- Witness for `c8_teardown`: one registered binding and one object with
two connected handlers. -/
theorem c8_witness :
    (((linkTeardown ⟨[5], [(1, [7, 8])]⟩ ⟨[5], [(1, 7), (1, 8)]⟩).1.linkerBindings
        = [] ∧
      (linkTeardown ⟨[5], [(1, [7, 8])]⟩ ⟨[5], [(1, 7), (1, 8)]⟩).1.linkerConnections
        = []) ∧
     linkTeardown (linkTeardown ⟨[5], [(1, [7, 8])]⟩ ⟨[5], [(1, 7), (1, 8)]⟩).1
         (linkTeardown ⟨[5], [(1, [7, 8])]⟩ ⟨[5], [(1, 7), (1, 8)]⟩).2.1 =
       ((linkTeardown ⟨[5], [(1, [7, 8])]⟩ ⟨[5], [(1, 7), (1, 8)]⟩).1,
        (linkTeardown ⟨[5], [(1, [7, 8])]⟩ ⟨[5], [(1, 7), (1, 8)]⟩).2.1, [], []) ∧
     (linkTeardown ⟨[5], [(1, [7, 8])]⟩ ⟨[5], [(1, 7), (1, 8)]⟩).2.2.1 = [5] ∧
     (linkTeardown ⟨[5], [(1, [7, 8])]⟩ ⟨[5], [(1, 7), (1, 8)]⟩).2.2.2 =
       regOrder ⟨[5], [(1, [7, 8])]⟩) :=
  c8_teardown ⟨[5], [(1, [7, 8])]⟩ ⟨[5], [(1, 7), (1, 8)]⟩
    (by decide) (by decide)

end DGutils
